import Mathlib

/-!
Verification model of the FindYoutube repository (contact-extraction and
channel-enumeration pipeline plus CSV post-processing tools).

Strings are modelled as `List Char`; Python regex scanning is modelled by
executable scanners that reproduce the leftmost, greedy-with-backtracking
semantics of `re.findall` / `re.match` for the concrete patterns appearing
in the source.  Character classes are modelled over ASCII (the inputs the
repository handles); `\s`, `\w`, `.lower()` and `.strip()` are modelled on
their ASCII behaviour.
-/

namespace FindYoutube

/-- Characters of a string literal (strings are modelled as `List Char`). -/
def str (s : String) : List Char := s.data

/-- ASCII letter, as in the regex classes `[A-Za-z]` / `[a-zA-Z]`. -/
def isAlphaC (c : Char) : Bool :=
  ('a' ≤ c && c ≤ 'z') || ('A' ≤ c && c ≤ 'Z')

/-- ASCII digit, as in the regex class `[0-9]` fragments. -/
def isDigitC (c : Char) : Bool := '0' ≤ c && c ≤ '9'

/-- Python regex `\w` (ASCII): letter, digit or underscore. -/
def isWordC (c : Char) : Bool := isAlphaC c || isDigitC c || c == '_'

/-- The email local-part class `[A-Za-z0-9._%+-]` (same set in the loose
scanning pattern of `app.py` and the strict pattern of `filter_emails.py`). -/
def isLocalC (c : Char) : Bool :=
  isAlphaC c || isDigitC c || c == '.' || c == '_' || c == '%' || c == '+' || c == '-'

/-- The email domain class `[A-Za-z0-9.-]`. -/
def isDomainC (c : Char) : Bool := isAlphaC c || isDigitC c || c == '.' || c == '-'

/-- The loose TLD class `[A-Z|a-z]` of the scanning pattern: note it
contains the literal bar character. -/
def isTldLooseC (c : Char) : Bool := isAlphaC c || c == '|'

/-- The strict TLD class `[a-zA-Z]` of `filter_emails.is_valid_email`. -/
def isTldStrictC (c : Char) : Bool := isAlphaC c

/-- Python regex `\s` (ASCII part). -/
def isPySpaceC (c : Char) : Bool :=
  c == ' ' || c == '\t' || c == '\n' || c == '\r' || c == '\x0b' || c == '\x0c'

/-- ASCII lowering, modelling Python `str.lower()` on the repository's data. -/
def lowerC (c : Char) : Char :=
  if 'A' ≤ c && c ≤ 'Z' then Char.ofNat (c.toNat + 32) else c

/-- Lowering of a whole string, as Python lower on the list model. -/
def lowerStr (l : List Char) : List Char := l.map lowerC

/-- Test that `l` begins with `p`, modelling the Python startswith method. -/
def startsWithL : List Char → List Char → Bool
  | _, [] => true
  | [], _ :: _ => false
  | c :: cs, p :: ps => c == p && startsWithL cs ps

/-- Substring containment, modelling the Python operator needle in hay. -/
def containsStr : List Char → List Char → Bool
  | [], needle => needle.isEmpty
  | c :: rest, needle => startsWithL (c :: rest) needle || containsStr rest needle

/-- Stripping of leading and trailing whitespace, modelling the Python strip method. -/
def stripL (l : List Char) : List Char :=
  ((l.dropWhile isPySpaceC).reverse.dropWhile isPySpaceC).reverse

/-- Maximal run of characters satisfying `p` at the head of the list, with
the remainder (the deterministic core of a greedy `p+` / `p*`). -/
def takeRun (p : Char → Bool) : List Char → List Char × List Char
  | [] => ([], [])
  | c :: rest =>
    if p c then
      let (r, t) := takeRun p rest
      (c :: r, t)
    else ([], c :: rest)

/-- Python regex `\b` between an optional previous and next character. -/
def wordB (prev next : Option Char) : Bool :=
  (match prev with | none => false | some c => isWordC c)
    != (match next with | none => false | some c => isWordC c)

/-- Backtracking for the tail `[A-Z|a-z]{2,}\b` of the loose email pattern:
`run` is the maximal loose-TLD run, `after` what follows it; the counter
walks the greedy length `j` of the repetition downwards (Python tries the
longest repetition first) looking for a word boundary after it.  Returns
the consumed TLD part and the remainder. -/
def tldAt (run after : List Char) : Nat → Option (List Char × List Char)
  | 0 => none
  | j + 1 =>
    if j + 1 < 2 then none
    else
      let kept := run.take (j + 1)
      let rest := run.drop (j + 1) ++ after
      if wordB kept.getLast? rest.head? then some (kept, rest)
      else tldAt run after j

/-- Backtracking for `[A-Za-z0-9.-]+\.[A-Z|a-z]{2,}\b` (the part after `@`
in the loose email pattern): `run` is the maximal domain-class run, the
counter walks the greedy length `k` of `[A-Za-z0-9.-]+` downwards; for each
`k` whose next character is a literal dot the TLD backtracking is tried. -/
def domAt (run after : List Char) : Nat → Option (List Char × List Char)
  | 0 => none
  | k + 1 =>
    let kept := run.take (k + 1)
    let rest := run.drop (k + 1) ++ after
    match rest with
    | '.' :: rest2 =>
      let (trun, tafter) := takeRun isTldLooseC rest2
      match tldAt trun tafter trun.length with
      | some (tld, rem) => some (kept ++ '.' :: tld, rem)
      | none => domAt run after k
    | _ => domAt run after k

/-- Attempt to match the loose email pattern
`\b[A-Za-z0-9._%+-]+@[A-Za-z0-9.-]+\.[A-Z|a-z]{2,}\b` at the head of `l`,
where `prev` is the character just before `l` in the scanned text (needed
for the leading `\b`).  On success returns the matched substring and the
remainder of the text. -/
def emailAt (prev : Option Char) (l : List Char) : Option (List Char × List Char) :=
  if !wordB prev l.head? then none
  else
    let (loc, r1) := takeRun isLocalC l
    if loc.isEmpty then none
    else
      match r1 with
      | '@' :: r2 =>
        let (drun, dafter) := takeRun isDomainC r2
        match domAt drun dafter drun.length with
        | some (dm, rest) => some (loc ++ '@' :: dm, rest)
        | none => none
      | _ => none

/-- Scanning loop of `re.findall` for the loose email pattern: try each
start position from left to right, emit non-overlapping matches, resume
after each match.  `fuel` bounds the recursion (each step consumes at
least one character). -/
def emailScanGo : Nat → Option Char → List Char → List (List Char)
  | 0, _, _ => []
  | _ + 1, _, [] => []
  | fuel + 1, prev, c :: rest =>
    match emailAt prev (c :: rest) with
    | some (m, rem) => m :: emailScanGo fuel m.getLast? rem
    | none => emailScanGo fuel (some c) rest

/-- Model of re.findall with the loose email pattern, as used by `app.py` and `filter_emails.py`. -/
def emailFindall (t : List Char) : List (List Char) := emailScanGo t.length none t

/-- Dollar anchor of re.match: end of string, or just before a final newline. -/
def dollarOk : List Char → Bool
  | [] => true
  | ['\n'] => true
  | _ => false

/-- Backtracking for the tail `[a-zA-Z]{2,}$` of the strict email pattern. -/
def tldStrictAt (run after : List Char) : Nat → Bool
  | 0 => false
  | j + 1 =>
    if j + 1 < 2 then false
    else if dollarOk (run.drop (j + 1) ++ after) then true
    else tldStrictAt run after j

/-- Backtracking for `[a-zA-Z0-9.-]+\.[a-zA-Z]{2,}$` of the strict pattern. -/
def domStrictAt (run after : List Char) : Nat → Bool
  | 0 => false
  | k + 1 =>
    let rest := run.drop (k + 1) ++ after
    match rest with
    | '.' :: rest2 =>
      let (trun, tafter) := takeRun isTldStrictC rest2
      if tldStrictAt trun tafter trun.length then true
      else domStrictAt run after k
    | _ => domStrictAt run after k

/-- Model of re.match with the strict single-email pattern
local-part, at sign, domain, dot, strict TLD, dollar anchor
(anchored at the start, the dollar as in `dollarOk`), viewed as a Bool. -/
def reMatchStrict (l : List Char) : Bool :=
  let (loc, r1) := takeRun isLocalC l
  if loc.isEmpty then false
  else
    match r1 with
    | '@' :: r2 =>
      let (drun, dafter) := takeRun isDomainC r2
      domStrictAt drun dafter drun.length
    | _ => false

/-- Model of is_valid_email from `filter_emails.py`: strip, then strict full match. -/
def is_valid_email (e : List Char) : Bool := reMatchStrict (stripL e)

/-- Model of contains_email from `filter_emails.py`: scan with the loose pattern, keep the
field when any found match passes the strict validator. -/
def contains_email (t : List Char) : Bool := (emailFindall t).any is_valid_email

/-- Consume the literal character sequence `pat` from the head of `l`. -/
def dropLit : List Char → List Char → Option (List Char)
  | [], l => some l
  | _ :: _, [] => none
  | p :: ps, c :: cs => if c == p then dropLit ps cs else none

/-- The URL character class: everything except whitespace and the three characters lt, gt and double quote. -/
def isUrlC (c : Char) : Bool := !(isPySpaceC c || c == '<' || c == '>' || c == '"')

/-- Attempt to match the URL pattern (scheme http with optional s, then
colon-slash-slash, optional www dot, then a captured nonempty run of URL
characters) at the head of `l`.
Returns the content of the capture group (what `re.findall` yields) and
the remainder after the whole match.  The optional `s` and `www.` parts
follow the greedy-with-backtracking semantics: `www.` is kept only when at
least one capture-group character follows it. -/
def urlAt (l : List Char) : Option (List Char × List Char) :=
  match dropLit (str "http") l with
  | none => none
  | some r1 =>
    let r2opt :=
      match dropLit (str "s://") r1 with
      | some r => some r
      | none => dropLit (str "://") r1
    match r2opt with
    | none => none
    | some r2 =>
      let afterW :=
        match dropLit (str "www.") r2 with
        | some r3 => if (takeRun isUrlC r3).1.isEmpty then r2 else r3
        | none => r2
      let (g, rest) := takeRun isUrlC afterW
      if g.isEmpty then none else some (g, rest)

/-- Scanning loop of `re.findall` for the URL pattern. -/
def urlScanGo : Nat → List Char → List (List Char)
  | 0, _ => []
  | _ + 1, [] => []
  | fuel + 1, c :: rest =>
    match urlAt (c :: rest) with
    | some (g, rem) => g :: urlScanGo fuel rem
    | none => urlScanGo fuel rest

/-- Model of re.findall with the URL pattern of `app.py`. -/
def urlFindall (t : List Char) : List (List Char) := urlScanGo t.length t

/-- A channel contact record, as built by `get_channel_details` in
`app.py` (only the contact fields that `extract_contacts_from_text`
reads or writes; an empty list models the empty string). -/
structure Record where
  emails : Finset (List Char)
  instagram : List Char
  twitter : List Char
  facebook : List Char
  tiktok : List Char
  twitch : List Char
  discord : List Char
  linkedin : List Char
  website : List Char
deriving DecidableEq

/-- The record as initialised by `get_channel_details`: empty email set
and empty strings for every link category. -/
def emptyRecord : Record := ⟨∅, [], [], [], [], [], [], [], []⟩

/-- Filter of `app.py` line 188: a match is dropped when its lowercase
form contains one of the false-positive substrings. -/
def badEmail (e : List Char) : Bool :=
  containsStr (lowerStr e) (str "example.com")
    || containsStr (lowerStr e) (str "yourdomain")
    || containsStr (lowerStr e) (str "test")

/-- The email loop of `extract_contacts_from_text`: each match that is
not a false positive is lowercased and added to the set. -/
def addEmails : Finset (List Char) → List (List Char) → Finset (List Char)
  | s, [] => s
  | s, e :: rest => addEmails (if badEmail e then s else insert (lowerStr e) s) rest

/-- Marker test: instagram.com occurs in url_lower. -/
def mInsta (u : List Char) : Bool := containsStr (lowerStr u) (str "instagram.com")

/-- Marker test: twitter.com occurs in url_lower. -/
def mTw (u : List Char) : Bool := containsStr (lowerStr u) (str "twitter.com")

/-- Marker test: x.com occurs in url_lower. -/
def mX (u : List Char) : Bool := containsStr (lowerStr u) (str "x.com")

/-- Marker test: facebook.com occurs in url_lower. -/
def mFb (u : List Char) : Bool := containsStr (lowerStr u) (str "facebook.com")

/-- Marker test: tiktok.com occurs in url_lower. -/
def mTik (u : List Char) : Bool := containsStr (lowerStr u) (str "tiktok.com")

/-- Marker test: twitch.tv occurs in url_lower. -/
def mTwi (u : List Char) : Bool := containsStr (lowerStr u) (str "twitch.tv")

/-- Marker test: discord occurs in url_lower. -/
def mDis (u : List Char) : Bool := containsStr (lowerStr u) (str "discord")

/-- Marker test: linkedin.com occurs in url_lower. -/
def mLin (u : List Char) : Bool := containsStr (lowerStr u) (str "linkedin.com")

/-- Exclusion test guarding the website fallback: one of youtube.com,
youtu.be or google.com occurs in url_lower. -/
def mExcl (u : List Char) : Bool :=
  containsStr (lowerStr u) (str "youtube.com")
    || containsStr (lowerStr u) (str "youtu.be")
    || containsStr (lowerStr u) (str "google.com")

/-- Stored link value: the captured URL text itself when it starts with
http, otherwise the https scheme prepended to it. -/
def storeUrl (u : List Char) : List Char :=
  if startsWithL u (str "http") then u else str "https://" ++ u

/-- Model of looks_like_website from `app.py`. -/
def looks_like_website (u : List Char) : Bool :=
  !(containsStr (lowerStr u) (str "instagram")
    || containsStr (lowerStr u) (str "twitter")
    || containsStr (lowerStr u) (str "facebook")
    || containsStr (lowerStr u) (str "tiktok")
    || containsStr (lowerStr u) (str "twitch")
    || containsStr (lowerStr u) (str "discord")
    || containsStr (lowerStr u) (str "linkedin")
    || containsStr (lowerStr u) (str "youtube")
    || containsStr (lowerStr u) (str "youtu.be"))

/-- One iteration of the URL loop of `extract_contacts_from_text`.  The
conditions reproduce the source line by line; in particular the twitter
branch keeps the literal Python parse
`'twitter.com' in url_lower or ('x.com' in url_lower and not twitter)`. -/
def applyUrl (r : Record) (u : List Char) : Record :=
  if mInsta u && r.instagram.isEmpty then { r with instagram := storeUrl u }
  else if mTw u || (mX u && r.twitter.isEmpty) then { r with twitter := storeUrl u }
  else if mFb u && r.facebook.isEmpty then { r with facebook := storeUrl u }
  else if mTik u && r.tiktok.isEmpty then { r with tiktok := storeUrl u }
  else if mTwi u && r.twitch.isEmpty then { r with twitch := storeUrl u }
  else if mDis u && r.discord.isEmpty then { r with discord := storeUrl u }
  else if mLin u && r.linkedin.isEmpty then { r with linkedin := storeUrl u }
  else if !mExcl u then
    if r.website.isEmpty && looks_like_website u then { r with website := storeUrl u }
    else r
  else r

/-- Model of extract_contacts_from_text from `app.py`: early return on empty text,
then the email loop, then the URL loop.  (The source mutates the record;
the model threads it.) -/
def extract_contacts_from_text (r : Record) (t : List Char) : Record :=
  if t.isEmpty then r
  else
    let r1 : Record := { r with emails := addEmails r.emails (emailFindall t) }
    (urlFindall t).foldl applyUrl r1

/-! ### Channel enumeration (`search_youtube_api` and `run` of `app.py`)

The network is abstracted by an oracle giving the outcome of each HTTP
attempt of a query's search request; a returned item is abstracted to the
number of emails the built channel profile contributes to `emails_found`
(0 both for a profile with no emails and for a failed
`get_channel_details`, which returns `None`). -/

/-- Outcome of one attempt of the search request: a transport failure
(any `requests.RequestException`, including non-quota HTTP errors raised
by `raise_for_status`), a 403 whose error reason is one of
`quotaExceeded` / `dailyLimitExceeded` / `rateLimitExceeded`, or a
successful response carrying the result items. -/
inductive Attempt where
  | transient : Attempt
  | quota : Attempt
  | ok : List Nat → Attempt
deriving DecidableEq

/-- Result of the retry loop of `search_youtube_api`. -/
structure RetryResult where
  sleeps : List Nat
  attemptsMade : Nat
  items : Option (List Nat)
  quotaHit : Bool
deriving DecidableEq

/-- Constant max_retries = 3 of search_youtube_api. -/
def max_retries : Nat := 3

/-- The retry loop `for attempt in range(max_retries)` of
`search_youtube_api`: a quota 403 returns at once (empty channel list so
far); success breaks with the data; a transport failure on the last
attempt returns, otherwise sleeps `(attempt + 1) * 5` and retries.
`rem` is the number of loop iterations left, `att` the attempt index. -/
def retryFrom (oracle : Nat → Attempt) : Nat → Nat → RetryResult
  | 0, _ => ⟨[], 0, none, false⟩
  | rem + 1, att =>
    match oracle att with
    | .quota => ⟨[], 1, none, true⟩
    | .ok items => ⟨[], 1, some items, false⟩
    | .transient =>
      if rem == 0 then ⟨[], 1, none, false⟩
      else
        let r := retryFrom oracle rem (att + 1)
        ⟨(att + 1) * 5 :: r.sleeps, r.attemptsMade + 1, r.items, r.quotaHit⟩

/-- The item loop of `search_youtube_api`: each item is handed to
`get_channel_details` (which increments `emails_found` by the number of
emails of the built profile), then `emails_found >= 100` breaks.  Returns
the trace of `emails_found` values at the start of each profile build,
and the final `emails_found`. -/
def processItems : Nat → List Nat → List Nat × Nat
  | ef, [] => ([], ef)
  | ef, item :: rest =>
    if 100 ≤ ef + item then ([ef], ef + item)
    else (ef :: (processItems (ef + item) rest).1, (processItems (ef + item) rest).2)

/-- Observable outcome of one `search_youtube_api` call. -/
structure SearchOutcome where
  buildTrace : List Nat
  emailsFound : Nat
  sleeps : List Nat
  attemptsMade : Nat
  quotaHit : Bool
deriving DecidableEq

/-- Model of search_youtube_api from `app.py`: the retry loop, then (only when a
response was obtained) the item loop.  An early `return channels` (quota
or exhausted retries) builds no profiles and leaves `emails_found`
untouched. -/
def search_youtube_api (ef : Nat) (oracle : Nat → Attempt) : SearchOutcome :=
  match (retryFrom oracle max_retries 0).items with
  | none =>
    ⟨[], ef, (retryFrom oracle max_retries 0).sleeps,
     (retryFrom oracle max_retries 0).attemptsMade, (retryFrom oracle max_retries 0).quotaHit⟩
  | some items =>
    ⟨(processItems ef items).1, (processItems ef items).2, (retryFrom oracle max_retries 0).sleeps,
     (retryFrom oracle max_retries 0).attemptsMade, (retryFrom oracle max_retries 0).quotaHit⟩

/-- Observable outcome of a `run`: the trace of `emails_found` at the
start of each profile build, the trace of `emails_found` at each issued
search query, and the final count. -/
structure RunOutcome where
  buildTrace : List Nat
  queryTrace : List Nat
  emailsFound : Nat
deriving DecidableEq

/-- The per-query loop of `run` in `app.py`: before each query the budget
is checked (`if self.emails_found >= 100: break`), then the query is
searched.  The web-scraping fallback that follows the loop builds no
channel profiles (its methods are logging stubs), so it contributes
nothing to either trace. -/
def run (ef : Nat) : List (Nat → Attempt) → RunOutcome
  | [] => ⟨[], [], ef⟩
  | q :: rest =>
    if 100 ≤ ef then ⟨[], [], ef⟩
    else
      ⟨(search_youtube_api ef q).buildTrace
         ++ (run (search_youtube_api ef q).emailsFound rest).buildTrace,
       ef :: (run (search_youtube_api ef q).emailsFound rest).queryTrace,
       (run (search_youtube_api ef q).emailsFound rest).emailsFound⟩

/-! ### CSV post-processing tools -/

/-- Padding/truncation performed by `csv.DictWriter` on
`dict(zip(fieldnames, row))`: the written row has exactly one cell per
header field, missing cells becoming the empty string. -/
def fitRow (n : Nat) (row : List (List Char)) : List (List Char) :=
  row.take n ++ List.replicate (n - row.length) []

/-- The row loop of `filter_emails.filter_csv` after the first data row:
a row is written when any of its fields satisfies `contains_email`. -/
def filterCsvLoop (n : Nat) : List (List (List Char)) → List (List (List Char))
  | [] => []
  | row :: rest =>
    if row.any contains_email then fitRow n row :: filterCsvLoop n rest
    else filterCsvLoop n rest

/-- Model of filter_csv from `filter_emails.py` (data rows only; header handling and file
I/O aside): the first data row is handled by a special-cased block with
the same retention test, the remaining rows by the loop. -/
def filter_csv (header : List (List Char)) (rows : List (List (List Char))) :
    List (List (List Char)) :=
  match rows with
  | [] => []
  | first :: rest =>
    (if first.any contains_email then [fitRow header.length first] else [])
      ++ filterCsvLoop header.length rest

/-- Model of clean_csv from `process_csv.py` (and the identical column logic of
`remove_other_links_simple.py`): when `other_links` occurs in the header,
drop every header cell equal to it and drop the cell at its first index
from each row long enough to reach that index, passing shorter rows
through; otherwise copy the input. -/
def clean_csv (headers : List (List Char)) (rows : List (List (List Char))) :
    List (List Char) × List (List (List Char)) :=
  if str "other_links" ∈ headers then
    let idx := headers.indexOf (str "other_links")
    (headers.filter (fun h => h != str "other_links"),
     rows.map (fun row => if idx < row.length then row.eraseIdx idx else row))
  else (headers, rows)

/-- The surviving, lowercased email matches of a scan. -/
def pyEmailFilter (ms : List (List Char)) : List (List Char) :=
  (ms.filter fun e => !badEmail e).map lowerStr

/-- Number of platform markers occurring in a URL. -/
def markerCount (u : List Char) : Nat :=
  (mInsta u).toNat + (mTw u).toNat + (mX u).toNat + (mFb u).toNat + (mTik u).toNat
    + (mTwi u).toNat + (mDis u).toNat + (mLin u).toNat

/-- Readiness of a record for one URL: every non-twitter category marked
in the URL is already populated, and for a marker-free website candidate
the website field is already populated. -/
def readyFor (s : Record) (u : List Char) : Prop :=
  (mInsta u = true → s.instagram ≠ [])
  ∧ (mFb u = true → s.facebook ≠ [])
  ∧ (mTik u = true → s.tiktok ≠ [])
  ∧ (mTwi u = true → s.twitch ≠ [])
  ∧ (mDis u = true → s.discord ≠ [])
  ∧ (mLin u = true → s.linkedin ≠ [])
  ∧ (mInsta u = false → mTw u = false → mX u = false → mFb u = false → mTik u = false →
      mTwi u = false → mDis u = false → mLin u = false → mExcl u = false →
      looks_like_website u = true → s.website ≠ [])

/-- The last URL of the list containing twitter.com, if any. -/
def lastTw (us : List (List Char)) : Option (List Char) :=
  (us.filter fun u => mTw u).getLast?

/-- Final value of the twitter field after a pass of the URL loop, given
its value before the pass. -/
def twFinal (tw0 : List Char) (us : List (List Char)) : List Char :=
  match lastTw us with
  | some u => storeUrl u
  | none => tw0

/-! ### Basic lemmas about the string model -/

theorem startsWithL_iff (l p : List Char) : startsWithL l p = true ↔ ∃ s, l = p ++ s := by
  induction p generalizing l with
  | nil =>
    simp [startsWithL]
  | cons q ps ih =>
    cases l with
    | nil => simp [startsWithL]
    | cons c cs =>
      simp only [startsWithL, Bool.and_eq_true, beq_iff_eq, ih, List.cons_append,
        List.cons.injEq]
      constructor
      · rintro ⟨rfl, s, rfl⟩
        exact ⟨s, rfl, rfl⟩
      · rintro ⟨s, rfl, rfl⟩
        exact ⟨rfl, s, rfl⟩

theorem containsStr_iff (hay n : List Char) :
    containsStr hay n = true ↔ ∃ p s, hay = p ++ n ++ s := by
  induction hay with
  | nil =>
    simp only [containsStr, List.isEmpty_iff]
    constructor
    · rintro rfl
      exact ⟨[], [], rfl⟩
    · rintro ⟨p, s, h⟩
      rcases List.append_eq_nil.mp h.symm with ⟨h1, -⟩
      exact (List.append_eq_nil.mp h1).2
  | cons c rest ih =>
    simp only [containsStr, Bool.or_eq_true, startsWithL_iff, ih]
    constructor
    · rintro (⟨s, hs⟩ | ⟨p, s, hp⟩)
      · exact ⟨[], s, by simpa using hs⟩
      · exact ⟨c :: p, s, by simp [hp]⟩
    · rintro ⟨p, s, h⟩
      cases p with
      | nil => exact Or.inl ⟨s, by simpa using h⟩
      | cons d ptl =>
        simp only [List.cons_append, List.cons.injEq] at h
        exact Or.inr ⟨ptl, s, h.2⟩

theorem containsStr_append_left (hay a b : List Char)
    (h : containsStr hay (a ++ b) = true) : containsStr hay a = true := by
  rcases (containsStr_iff hay (a ++ b)).mp h with ⟨p, s, rfl⟩
  exact (containsStr_iff _ a).mpr ⟨p, b ++ s, by simp⟩

theorem isEmpty_false_iff (l : List Char) : l.isEmpty = false ↔ l ≠ [] := by
  cases l <;> simp

theorem isEmpty_true_iff (l : List Char) : l.isEmpty = true ↔ l = [] := by
  cases l <;> simp

theorem storeUrl_ne_nil (u : List Char) : storeUrl u ≠ [] := by
  unfold storeUrl
  split_ifs with h
  · rcases (startsWithL_iff u (str "http")).mp h with ⟨s, rfl⟩
    simp [str]
  · simp [str]

/-! ### Marker exclusion lemmas -/

theorem mInsta_not_website (u : List Char) (h : mInsta u = true) :
    looks_like_website u = false := by
  have h1 : containsStr (lowerStr u) (str "instagram") = true := by
    have e : str "instagram.com" = str "instagram" ++ str ".com" := by decide
    exact containsStr_append_left _ _ _ (by rw [← e]; exact h)
  simp [looks_like_website, h1]

theorem mTw_not_website (u : List Char) (h : mTw u = true) :
    looks_like_website u = false := by
  have h1 : containsStr (lowerStr u) (str "twitter") = true := by
    have e : str "twitter.com" = str "twitter" ++ str ".com" := by decide
    exact containsStr_append_left _ _ _ (by rw [← e]; exact h)
  simp [looks_like_website, h1]

theorem mFb_not_website (u : List Char) (h : mFb u = true) :
    looks_like_website u = false := by
  have h1 : containsStr (lowerStr u) (str "facebook") = true := by
    have e : str "facebook.com" = str "facebook" ++ str ".com" := by decide
    exact containsStr_append_left _ _ _ (by rw [← e]; exact h)
  simp [looks_like_website, h1]

theorem mTik_not_website (u : List Char) (h : mTik u = true) :
    looks_like_website u = false := by
  have h1 : containsStr (lowerStr u) (str "tiktok") = true := by
    have e : str "tiktok.com" = str "tiktok" ++ str ".com" := by decide
    exact containsStr_append_left _ _ _ (by rw [← e]; exact h)
  simp [looks_like_website, h1]

theorem mTwi_not_website (u : List Char) (h : mTwi u = true) :
    looks_like_website u = false := by
  have h1 : containsStr (lowerStr u) (str "twitch") = true := by
    have e : str "twitch.tv" = str "twitch" ++ str ".tv" := by decide
    exact containsStr_append_left _ _ _ (by rw [← e]; exact h)
  simp [looks_like_website, h1]

theorem mDis_not_website (u : List Char) (h : mDis u = true) :
    looks_like_website u = false := by
  simp [looks_like_website, show containsStr (lowerStr u) (str "discord") = true from h]

theorem mLin_not_website (u : List Char) (h : mLin u = true) :
    looks_like_website u = false := by
  have h1 : containsStr (lowerStr u) (str "linkedin") = true := by
    have e : str "linkedin.com" = str "linkedin" ++ str ".com" := by decide
    exact containsStr_append_left _ _ _ (by rw [← e]; exact h)
  simp [looks_like_website, h1]

/-! ### Behaviour of the URL loop -/

theorem applyUrl_emails (s : Record) (u : List Char) : (applyUrl s u).emails = s.emails := by
  unfold applyUrl
  split_ifs <;> rfl

theorem foldl_applyUrl_emails (us : List (List Char)) (s : Record) :
    (us.foldl applyUrl s).emails = s.emails := by
  induction us generalizing s with
  | nil => rfl
  | cons u rest ih => rw [List.foldl_cons, ih, applyUrl_emails]

/-- Each category field of the record is either untouched by one URL-loop
step or set to the stored form of that URL; the website field is only ever
set when the looks_like_website guard accepted the URL. -/
theorem applyUrl_field_step (s : Record) (u : List Char) :
    ((applyUrl s u).instagram = s.instagram ∨ (applyUrl s u).instagram = storeUrl u)
    ∧ ((applyUrl s u).twitter = s.twitter ∨ (applyUrl s u).twitter = storeUrl u)
    ∧ ((applyUrl s u).facebook = s.facebook ∨ (applyUrl s u).facebook = storeUrl u)
    ∧ ((applyUrl s u).tiktok = s.tiktok ∨ (applyUrl s u).tiktok = storeUrl u)
    ∧ ((applyUrl s u).twitch = s.twitch ∨ (applyUrl s u).twitch = storeUrl u)
    ∧ ((applyUrl s u).discord = s.discord ∨ (applyUrl s u).discord = storeUrl u)
    ∧ ((applyUrl s u).linkedin = s.linkedin ∨ (applyUrl s u).linkedin = storeUrl u)
    ∧ ((applyUrl s u).website = s.website
        ∨ ((applyUrl s u).website = storeUrl u ∧ looks_like_website u = true)) := by
  unfold applyUrl
  split_ifs <;> simp_all

/-- Combination step used to lift per-step field provenance to the fold. -/
theorem fieldFrom_step {a b c : List Char} {u : List Char} {us : List (List Char)}
    (h1 : b = a ∨ b = storeUrl u)
    (h2 : c = b ∨ ∃ v ∈ us, c = storeUrl v) :
    c = a ∨ ∃ v ∈ u :: us, c = storeUrl v := by
  rcases h2 with rfl | ⟨v, hv, hc⟩
  · rcases h1 with rfl | h
    · exact Or.inl rfl
    · exact Or.inr ⟨u, List.mem_cons_self u us, h⟩
  · exact Or.inr ⟨v, List.mem_cons_of_mem u hv, hc⟩

/-- Provenance of every category field over the whole URL loop. -/
theorem foldl_applyUrl_prov (us : List (List Char)) (s : Record) :
    ((us.foldl applyUrl s).instagram = s.instagram
      ∨ ∃ v ∈ us, (us.foldl applyUrl s).instagram = storeUrl v)
    ∧ ((us.foldl applyUrl s).twitter = s.twitter
      ∨ ∃ v ∈ us, (us.foldl applyUrl s).twitter = storeUrl v)
    ∧ ((us.foldl applyUrl s).facebook = s.facebook
      ∨ ∃ v ∈ us, (us.foldl applyUrl s).facebook = storeUrl v)
    ∧ ((us.foldl applyUrl s).tiktok = s.tiktok
      ∨ ∃ v ∈ us, (us.foldl applyUrl s).tiktok = storeUrl v)
    ∧ ((us.foldl applyUrl s).twitch = s.twitch
      ∨ ∃ v ∈ us, (us.foldl applyUrl s).twitch = storeUrl v)
    ∧ ((us.foldl applyUrl s).discord = s.discord
      ∨ ∃ v ∈ us, (us.foldl applyUrl s).discord = storeUrl v)
    ∧ ((us.foldl applyUrl s).linkedin = s.linkedin
      ∨ ∃ v ∈ us, (us.foldl applyUrl s).linkedin = storeUrl v)
    ∧ ((us.foldl applyUrl s).website = s.website
      ∨ ∃ v ∈ us, (us.foldl applyUrl s).website = storeUrl v) := by
  induction us generalizing s with
  | nil =>
    refine ⟨Or.inl rfl, Or.inl rfl, Or.inl rfl, Or.inl rfl, Or.inl rfl, Or.inl rfl,
      Or.inl rfl, Or.inl rfl⟩
  | cons u rest ih =>
    obtain ⟨s1, s2, s3, s4, s5, s6, s7, s8⟩ := applyUrl_field_step s u
    obtain ⟨i1, i2, i3, i4, i5, i6, i7, i8⟩ := ih (applyUrl s u)
    rw [List.foldl_cons]
    exact ⟨fieldFrom_step s1 i1, fieldFrom_step s2 i2, fieldFrom_step s3 i3,
      fieldFrom_step s4 i4, fieldFrom_step s5 i5, fieldFrom_step s6 i6,
      fieldFrom_step s7 i7,
      fieldFrom_step (s8.imp id And.left) i8⟩

/-- Provenance of the website field over the URL loop, remembering that
every URL stored there passed the looks_like_website guard. -/
theorem foldl_website_prov (us : List (List Char)) (s : Record) :
    (us.foldl applyUrl s).website = s.website
      ∨ ∃ v ∈ us, (us.foldl applyUrl s).website = storeUrl v
          ∧ looks_like_website v = true := by
  induction us generalizing s with
  | nil => exact Or.inl rfl
  | cons u rest ih =>
    rw [List.foldl_cons]
    rcases ih (applyUrl s u) with h | ⟨v, hv, hc, hl⟩
    · rcases (applyUrl_field_step s u).2.2.2.2.2.2.2 with h2 | ⟨h2, hl⟩
      · exact Or.inl (h.trans h2)
      · exact Or.inr ⟨u, List.mem_cons_self u rest, h.trans h2, hl⟩
    · exact Or.inr ⟨v, List.mem_cons_of_mem u hv, hc, hl⟩

/-! ### The email set as a union -/

theorem addEmails_eq (ms : List (List Char)) (s : Finset (List Char)) :
    addEmails s ms = s ∪ (pyEmailFilter ms).toFinset := by
  induction ms generalizing s with
  | nil => simp [addEmails, pyEmailFilter]
  | cons e rest ih =>
    by_cases hb : badEmail e = true
    · simp [addEmails, hb, ih, pyEmailFilter, List.filter_cons]
    · simp only [Bool.not_eq_true] at hb
      simp [addEmails, hb, ih, pyEmailFilter, List.filter_cons, Finset.insert_union,
        Finset.union_insert]

/-! ### Idempotence machinery for the URL loop -/

/-- When at most one marker occurs in a URL, any marker that does occur
excludes all the others. -/
theorem marker_unique (u : List Char) (h : markerCount u ≤ 1) :
    (mInsta u = true → mTw u = false ∧ mX u = false ∧ mFb u = false ∧ mTik u = false
      ∧ mTwi u = false ∧ mDis u = false ∧ mLin u = false)
    ∧ (mTw u = true → mInsta u = false ∧ mX u = false ∧ mFb u = false ∧ mTik u = false
      ∧ mTwi u = false ∧ mDis u = false ∧ mLin u = false)
    ∧ (mFb u = true → mInsta u = false ∧ mTw u = false ∧ mX u = false ∧ mTik u = false
      ∧ mTwi u = false ∧ mDis u = false ∧ mLin u = false)
    ∧ (mTik u = true → mInsta u = false ∧ mTw u = false ∧ mX u = false ∧ mFb u = false
      ∧ mTwi u = false ∧ mDis u = false ∧ mLin u = false)
    ∧ (mTwi u = true → mInsta u = false ∧ mTw u = false ∧ mX u = false ∧ mFb u = false
      ∧ mTik u = false ∧ mDis u = false ∧ mLin u = false)
    ∧ (mDis u = true → mInsta u = false ∧ mTw u = false ∧ mX u = false ∧ mFb u = false
      ∧ mTik u = false ∧ mTwi u = false ∧ mLin u = false)
    ∧ (mLin u = true → mInsta u = false ∧ mTw u = false ∧ mX u = false ∧ mFb u = false
      ∧ mTik u = false ∧ mTwi u = false ∧ mDis u = false) := by
  unfold markerCount at h
  cases hI : mInsta u <;> cases hT : mTw u <;> cases hX : mX u <;> cases hF : mFb u <;>
    cases hK : mTik u <;> cases hW : mTwi u <;> cases hD : mDis u <;> cases hL : mLin u <;>
    simp only [hI, hT, hX, hF, hK, hW, hD, hL, Bool.toNat_true, Bool.toNat_false] at h ⊢ <;>
    first
      | omega
      | simp

/-- A condition of the form marker and field-empty is false when the
marker implies the field is populated. -/
theorem andEmpty_false (b : Bool) (l : List Char) (h : b = true → l ≠ []) :
    (b && l.isEmpty) = false := by
  cases hb : b
  · rfl
  · simp [(isEmpty_false_iff l).mpr (h hb)]

/-- Nonempty category fields stay nonempty through one URL-loop step. -/
theorem applyUrl_keeps_ne (s : Record) (u : List Char) :
    (s.instagram ≠ [] → (applyUrl s u).instagram ≠ [])
    ∧ (s.facebook ≠ [] → (applyUrl s u).facebook ≠ [])
    ∧ (s.tiktok ≠ [] → (applyUrl s u).tiktok ≠ [])
    ∧ (s.twitch ≠ [] → (applyUrl s u).twitch ≠ [])
    ∧ (s.discord ≠ [] → (applyUrl s u).discord ≠ [])
    ∧ (s.linkedin ≠ [] → (applyUrl s u).linkedin ≠ [])
    ∧ (s.website ≠ [] → (applyUrl s u).website ≠ []) := by
  unfold applyUrl
  split_ifs <;> simp_all [storeUrl_ne_nil]

/-- Readiness is preserved by further URL-loop steps. -/
theorem readyFor_mono (s : Record) (v u : List Char) (h : readyFor s u) :
    readyFor (applyUrl s v) u := by
  obtain ⟨r1, r2, r3, r4, r5, r6, r7⟩ := h
  obtain ⟨k1, k2, k3, k4, k5, k6, k7⟩ := applyUrl_keeps_ne s v
  exact ⟨fun hm => k1 (r1 hm), fun hm => k2 (r2 hm), fun hm => k3 (r3 hm),
    fun hm => k4 (r4 hm), fun hm => k5 (r5 hm), fun hm => k6 (r6 hm),
    fun a b c d e f g i j l => k7 (r7 a b c d e f g i j l)⟩

/-- Readiness is preserved by the rest of the URL loop. -/
theorem readyFor_foldl (us : List (List Char)) (s : Record) (u : List Char)
    (h : readyFor s u) : readyFor (us.foldl applyUrl s) u := by
  induction us generalizing s with
  | nil => exact h
  | cons v rest ih => exact ih (applyUrl s v) (readyFor_mono s v u h)

/-- Equation for the URL loop when the instagram branch fires. -/
theorem applyUrl_insta_fires (s : Record) (u : List Char)
    (hm : mInsta u = true) (hE : s.instagram = []) :
    applyUrl s u = { s with instagram := storeUrl u } := by
  simp [applyUrl, hm, hE]

/-- Equation for the URL loop when the twitter branch fires through the
twitter.com disjunct (which, by the literal operator precedence of the
source, ignores whether the field is already populated). -/
theorem applyUrl_tw_fires (s : Record) (u : List Char)
    (hi : mInsta u = false) (hm : mTw u = true) :
    applyUrl s u = { s with twitter := storeUrl u } := by
  simp [applyUrl, hi, hm]

/-- Equation for the URL loop when the facebook branch fires. -/
theorem applyUrl_fb_fires (s : Record) (u : List Char)
    (hi : mInsta u = false) (ht : mTw u = false) (hx : mX u = false)
    (hm : mFb u = true) (hE : s.facebook = []) :
    applyUrl s u = { s with facebook := storeUrl u } := by
  simp [applyUrl, hi, ht, hx, hm, hE]

/-- Equation for the URL loop when the tiktok branch fires. -/
theorem applyUrl_tik_fires (s : Record) (u : List Char)
    (hi : mInsta u = false) (ht : mTw u = false) (hx : mX u = false)
    (hf : mFb u = false) (hm : mTik u = true) (hE : s.tiktok = []) :
    applyUrl s u = { s with tiktok := storeUrl u } := by
  simp [applyUrl, hi, ht, hx, hf, hm, hE]

/-- Equation for the URL loop when the twitch branch fires. -/
theorem applyUrl_twi_fires (s : Record) (u : List Char)
    (hi : mInsta u = false) (ht : mTw u = false) (hx : mX u = false)
    (hf : mFb u = false) (hk : mTik u = false) (hm : mTwi u = true)
    (hE : s.twitch = []) :
    applyUrl s u = { s with twitch := storeUrl u } := by
  simp [applyUrl, hi, ht, hx, hf, hk, hm, hE]

/-- Equation for the URL loop when the discord branch fires. -/
theorem applyUrl_dis_fires (s : Record) (u : List Char)
    (hi : mInsta u = false) (ht : mTw u = false) (hx : mX u = false)
    (hf : mFb u = false) (hk : mTik u = false) (hw : mTwi u = false)
    (hm : mDis u = true) (hE : s.discord = []) :
    applyUrl s u = { s with discord := storeUrl u } := by
  simp [applyUrl, hi, ht, hx, hf, hk, hw, hm, hE]

/-- Equation for the URL loop when the linkedin branch fires. -/
theorem applyUrl_lin_fires (s : Record) (u : List Char)
    (hi : mInsta u = false) (ht : mTw u = false) (hx : mX u = false)
    (hf : mFb u = false) (hk : mTik u = false) (hw : mTwi u = false)
    (hd : mDis u = false) (hm : mLin u = true) (hE : s.linkedin = []) :
    applyUrl s u = { s with linkedin := storeUrl u } := by
  simp [applyUrl, hi, ht, hx, hf, hk, hw, hd, hm, hE]

/-- Equation for the URL loop when the website fallback fires. -/
theorem applyUrl_website_fires (s : Record) (u : List Char)
    (hi : mInsta u = false) (ht : mTw u = false) (hx : mX u = false)
    (hf : mFb u = false) (hk : mTik u = false) (hw : mTwi u = false)
    (hd : mDis u = false) (hl : mLin u = false) (hex : mExcl u = false)
    (hlw : looks_like_website u = true) (hE : s.website = []) :
    applyUrl s u = { s with website := storeUrl u } := by
  simp [applyUrl, hi, ht, hx, hf, hk, hw, hd, hl, hex, hlw, hE]

/-- Processing a URL leaves the record ready for that same URL (under the
single-marker and no-x.com hypotheses). -/
theorem readyFor_self (s : Record) (u : List Char)
    (hc : markerCount u ≤ 1) (hx : mX u = false) : readyFor (applyUrl s u) u := by
  obtain ⟨eI, eT, eF, eK, eW, eD, eL⟩ := marker_unique u hc
  refine ⟨?_, ?_, ?_, ?_, ?_, ?_, ?_⟩
  · intro hm
    by_cases hE : s.instagram = []
    · rw [applyUrl_insta_fires s u hm hE]
      exact storeUrl_ne_nil u
    · rcases (applyUrl_field_step s u).1 with h | h
      · rw [h]; exact hE
      · rw [h]; exact storeUrl_ne_nil u
  · intro hm
    obtain ⟨hi, ht, -, -, -, -, -⟩ := eF hm
    by_cases hE : s.facebook = []
    · rw [applyUrl_fb_fires s u hi ht hx hm hE]
      exact storeUrl_ne_nil u
    · rcases (applyUrl_field_step s u).2.2.1 with h | h
      · rw [h]; exact hE
      · rw [h]; exact storeUrl_ne_nil u
  · intro hm
    obtain ⟨hi, ht, -, hf, -, -, -⟩ := eK hm
    by_cases hE : s.tiktok = []
    · rw [applyUrl_tik_fires s u hi ht hx hf hm hE]
      exact storeUrl_ne_nil u
    · rcases (applyUrl_field_step s u).2.2.2.1 with h | h
      · rw [h]; exact hE
      · rw [h]; exact storeUrl_ne_nil u
  · intro hm
    obtain ⟨hi, ht, -, hf, hk, -, -⟩ := eW hm
    by_cases hE : s.twitch = []
    · rw [applyUrl_twi_fires s u hi ht hx hf hk hm hE]
      exact storeUrl_ne_nil u
    · rcases (applyUrl_field_step s u).2.2.2.2.1 with h | h
      · rw [h]; exact hE
      · rw [h]; exact storeUrl_ne_nil u
  · intro hm
    obtain ⟨hi, ht, -, hf, hk, hw, -⟩ := eD hm
    by_cases hE : s.discord = []
    · rw [applyUrl_dis_fires s u hi ht hx hf hk hw hm hE]
      exact storeUrl_ne_nil u
    · rcases (applyUrl_field_step s u).2.2.2.2.2.1 with h | h
      · rw [h]; exact hE
      · rw [h]; exact storeUrl_ne_nil u
  · intro hm
    obtain ⟨hi, ht, -, hf, hk, hw, hd⟩ := eL hm
    by_cases hE : s.linkedin = []
    · rw [applyUrl_lin_fires s u hi ht hx hf hk hw hd hm hE]
      exact storeUrl_ne_nil u
    · rcases (applyUrl_field_step s u).2.2.2.2.2.2.1 with h | h
      · rw [h]; exact hE
      · rw [h]; exact storeUrl_ne_nil u
  · intro hi ht hx2 hf hk hw hd hl hex hlw
    by_cases hE : s.website = []
    · rw [applyUrl_website_fires s u hi ht hx2 hf hk hw hd hl hex hlw hE]
      exact storeUrl_ne_nil u
    · rcases (applyUrl_field_step s u).2.2.2.2.2.2.2 with h | ⟨h, -⟩
      · rw [h]; exact hE
      · rw [h]; exact storeUrl_ne_nil u

/-- After the URL loop, the record is ready for every processed URL. -/
theorem readyAfterFold (us : List (List Char)) (s : Record)
    (hsafe : ∀ u ∈ us, markerCount u ≤ 1 ∧ mX u = false) :
    ∀ u ∈ us, readyFor (us.foldl applyUrl s) u := by
  induction us generalizing s with
  | nil => intro u hu; cases hu
  | cons v rest ih =>
    intro u hu
    rw [List.foldl_cons]
    rcases List.mem_cons.mp hu with rfl | hu2
    · obtain ⟨hc, hx⟩ := hsafe u (List.mem_cons_self u rest)
      exact readyFor_foldl rest (applyUrl s u) u (readyFor_self s u hc hx)
    · exact ih (applyUrl s v) (fun w hw => hsafe w (List.mem_cons_of_mem v hw)) u hu2

/-- Steps for URLs without twitter.com or x.com never write the twitter
field. -/
theorem applyUrl_tw_preserve (s : Record) (u : List Char)
    (ht : mTw u = false) (hx : mX u = false) :
    (applyUrl s u).twitter = s.twitter := by
  unfold applyUrl
  split_ifs with h1 h2 h3 h4 h5 h6 h7 h8 h9 <;> simp_all

theorem getLast?_cons_some (a : List Char) (l : List (List Char)) :
    ∃ w, (a :: l).getLast? = some w := by
  induction l generalizing a with
  | nil => exact ⟨a, rfl⟩
  | cons b m ih =>
    rw [List.getLast?_cons_cons]
    exact ih b

theorem lastTw_cons_pos (u : List Char) (us : List (List Char)) (h : mTw u = true) :
    lastTw (u :: us) = match lastTw us with
      | some w => some w
      | none => some u := by
  unfold lastTw
  rw [List.filter_cons_of_pos h]
  cases hfr : us.filter fun v => mTw v with
  | nil => simp [hfr]
  | cons a l =>
    simp only [hfr, List.getLast?_cons_cons]
    obtain ⟨w, hw⟩ := getLast?_cons_some a l
    rw [hw]

theorem lastTw_cons_neg (u : List Char) (us : List (List Char)) (h : mTw u = false) :
    lastTw (u :: us) = lastTw us := by
  unfold lastTw
  rw [List.filter_cons_of_neg (by simp [h])]

/-- A pass of the URL loop always ends with the twitter field equal to
the stored form of the last twitter.com URL of the pass (or its previous
value when there is none), provided URLs carry at most one marker and no
x.com. -/
theorem foldl_twitter (us : List (List Char)) (s : Record)
    (hsafe : ∀ u ∈ us, markerCount u ≤ 1 ∧ mX u = false) :
    (us.foldl applyUrl s).twitter = twFinal s.twitter us := by
  induction us generalizing s with
  | nil => rfl
  | cons u rest ih =>
    obtain ⟨hc, hx⟩ := hsafe u (List.mem_cons_self u rest)
    have hrest : ∀ v ∈ rest, markerCount v ≤ 1 ∧ mX v = false :=
      fun v hv => hsafe v (List.mem_cons_of_mem u hv)
    rw [List.foldl_cons]
    by_cases ht : mTw u = true
    · have hi : mInsta u = false := ((marker_unique u hc).2.1 ht).1
      rw [applyUrl_tw_fires s u hi ht, ih _ hrest]
      unfold twFinal
      rw [lastTw_cons_pos u rest ht]
      cases lastTw rest <;> rfl
    · replace ht : mTw u = false := by
        cases h : mTw u
        · rfl
        · exact absurd h ht
      rw [ih _ hrest]
      unfold twFinal
      rw [lastTw_cons_neg u rest ht]
      cases lastTw rest with
      | some w => rfl
      | none => exact applyUrl_tw_preserve s u ht hx

/-- A URL without twitter.com or x.com is a no-op on a record that is
ready for it. -/
theorem applyUrl_noop (s : Record) (u : List Char)
    (hc : markerCount u ≤ 1) (hx : mX u = false) (htw : mTw u = false)
    (hr : readyFor s u) : applyUrl s u = s := by
  obtain ⟨r1, r2, r3, r4, r5, r6, r7⟩ := hr
  have c1 : (mInsta u && s.instagram.isEmpty) = false := andEmpty_false _ _ r1
  have c2 : (mTw u || (mX u && s.twitter.isEmpty)) = false := by simp [htw, hx]
  have c3 : (mFb u && s.facebook.isEmpty) = false := andEmpty_false _ _ r2
  have c4 : (mTik u && s.tiktok.isEmpty) = false := andEmpty_false _ _ r3
  have c5 : (mTwi u && s.twitch.isEmpty) = false := andEmpty_false _ _ r4
  have c6 : (mDis u && s.discord.isEmpty) = false := andEmpty_false _ _ r5
  have c7 : (mLin u && s.linkedin.isEmpty) = false := andEmpty_false _ _ r6
  by_cases hex : mExcl u = true
  · simp [applyUrl, c1, c2, c3, c4, c5, c6, c7, hex]
  · replace hex : mExcl u = false := by
      cases h : mExcl u
      · rfl
      · exact absurd h hex
    have hlwOr : looks_like_website u = false ∨ s.website ≠ [] := by
      cases hI : mInsta u with
      | true => exact Or.inl (mInsta_not_website u hI)
      | false =>
        cases hF : mFb u with
        | true => exact Or.inl (mFb_not_website u hF)
        | false =>
          cases hK : mTik u with
          | true => exact Or.inl (mTik_not_website u hK)
          | false =>
            cases hW : mTwi u with
            | true => exact Or.inl (mTwi_not_website u hW)
            | false =>
              cases hD : mDis u with
              | true => exact Or.inl (mDis_not_website u hD)
              | false =>
                cases hL : mLin u with
                | true => exact Or.inl (mLin_not_website u hL)
                | false =>
                  cases hlw : looks_like_website u with
                  | false => exact Or.inl rfl
                  | true =>
                    exact Or.inr (r7 hI htw hx hF hK hW hD hL hex hlw)
    have cW : (s.website.isEmpty && looks_like_website u) = false := by
      rcases hlwOr with h | h
      · simp [h]
      · simp [(isEmpty_false_iff s.website).mpr h]
    simp [applyUrl, c1, c2, c3, c4, c5, c6, c7, hex, cW]

/-- On a record that is ready for every URL of the pass, the URL loop
changes at most the twitter field, which ends at its forced final value. -/
theorem foldl_applyUrl_fix (us : List (List Char)) (s : Record)
    (hsafe : ∀ u ∈ us, markerCount u ≤ 1 ∧ mX u = false)
    (hready : ∀ u ∈ us, readyFor s u) :
    us.foldl applyUrl s = { s with twitter := twFinal s.twitter us } := by
  induction us generalizing s with
  | nil => rfl
  | cons u rest ih =>
    obtain ⟨hc, hx⟩ := hsafe u (List.mem_cons_self u rest)
    have hrest : ∀ v ∈ rest, markerCount v ≤ 1 ∧ mX v = false :=
      fun v hv => hsafe v (List.mem_cons_of_mem u hv)
    rw [List.foldl_cons]
    by_cases ht : mTw u = true
    · have hi : mInsta u = false := ((marker_unique u hc).2.1 ht).1
      rw [applyUrl_tw_fires s u hi ht]
      have hready2 : ∀ v ∈ rest, readyFor { s with twitter := storeUrl u } v :=
        fun v hv => hready v (List.mem_cons_of_mem u hv)
      rw [ih _ hrest hready2]
      unfold twFinal
      rw [lastTw_cons_pos u rest ht]
      cases lastTw rest <;> rfl
    · replace ht : mTw u = false := by
        cases h : mTw u
        · rfl
        · exact absurd h ht
      rw [applyUrl_noop s u hc hx ht (hready u (List.mem_cons_self u rest)),
        ih _ hrest (fun v hv => hready v (List.mem_cons_of_mem u hv))]
      unfold twFinal
      rw [lastTw_cons_neg u rest ht]

/-! ### Budget and retry lemmas for the enumerator -/

theorem processItems_trace (items : List Nat) (ef : Nat) (h : ef < 100) :
    ∀ b ∈ (processItems ef items).1, b < 100 := by
  induction items generalizing ef with
  | nil =>
    intro b hb
    simp [processItems] at hb
  | cons item rest ih =>
    intro b hb
    unfold processItems at hb
    by_cases hstop : 100 ≤ ef + item
    · rw [if_pos hstop] at hb
      rcases List.mem_singleton.mp hb with rfl
      exact h
    · rw [if_neg hstop] at hb
      rcases List.mem_cons.mp hb with rfl | hb2
      · exact h
      · exact ih (ef + item) (Nat.lt_of_not_le hstop) b hb2

theorem search_trace (ef : Nat) (o : Nat → Attempt) (h : ef < 100) :
    ∀ b ∈ (search_youtube_api ef o).buildTrace, b < 100 := by
  intro b hb
  unfold search_youtube_api at hb
  cases hi : (retryFrom o max_retries 0).items with
  | none =>
    rw [hi] at hb
    simp at hb
  | some items =>
    rw [hi] at hb
    exact processItems_trace items ef h b hb

theorem run_trace (qs : List (Nat → Attempt)) (ef : Nat) :
    (∀ b ∈ (run ef qs).buildTrace, b < 100) ∧ ∀ q ∈ (run ef qs).queryTrace, q < 100 := by
  induction qs generalizing ef with
  | nil =>
    constructor <;> intro b hb <;> simp [run] at hb
  | cons q rest ih =>
    by_cases h : 100 ≤ ef
    · constructor <;> intro b hb <;> simp [run, if_pos h] at hb
    · have hef : ef < 100 := Nat.lt_of_not_le h
      constructor
      · intro b hb
        simp only [run, if_neg h] at hb
        rcases List.mem_append.mp hb with hb2 | hb2
        · exact search_trace ef q hef b hb2
        · exact (ih _).1 b hb2
      · intro x hx
        simp only [run, if_neg h] at hx
        rcases List.mem_cons.mp hx with rfl | hx2
        · exact hef
        · exact (ih _).2 x hx2

/-- The retry loop when attempt `k` reports a quota error after `k`
transient failures: one sleep per transient, then immediate return with
the quota flag, no further attempts. -/
theorem retryFrom_quota (o : Nat → Attempt) (k : Nat) (hk : k < max_retries)
    (htr : ∀ i, i < k → o i = Attempt.transient) (hq : o k = Attempt.quota) :
    retryFrom o max_retries 0 =
      ⟨(List.range k).map (fun i => (i + 1) * 5), k + 1, none, true⟩ := by
  unfold max_retries at hk
  interval_cases k
  · simp [retryFrom, max_retries, hq]
  · have h0 := htr 0 (by omega)
    simp [retryFrom, max_retries, h0, hq, List.range_succ]
  · have h0 := htr 0 (by omega)
    have h1 := htr 1 (by omega)
    simp [retryFrom, max_retries, h0, h1, hq, List.range_succ]

/-- The retry loop when every attempt fails transiently: sleeps of 5 and
10 time units, three attempts, then give up with no data. -/
theorem retryFrom_transient (o : Nat → Attempt)
    (htr : ∀ i, i < max_retries → o i = Attempt.transient) :
    retryFrom o max_retries 0 = ⟨[5, 10], 3, none, false⟩ := by
  have h0 := htr 0 (by simp [max_retries])
  have h1 := htr 1 (by simp [max_retries])
  have h2 := htr 2 (by simp [max_retries])
  simp [retryFrom, max_retries, h0, h1, h2]

/-- A search call that obtained no response data builds nothing and
leaves the email counter unchanged, and the run then continues with the
remaining queries exactly as it would have without that query. -/
theorem run_cons_of_items_none (ef : Nat) (o : Nat → Attempt)
    (rest : List (Nat → Attempt)) (hef : ef < 100)
    (hi : (retryFrom o max_retries 0).items = none) :
    run ef (o :: rest) =
      ⟨(run ef rest).buildTrace, ef :: (run ef rest).queryTrace,
        (run ef rest).emailsFound⟩ := by
  have hs : (search_youtube_api ef o).buildTrace = []
      ∧ (search_youtube_api ef o).emailsFound = ef := by
    unfold search_youtube_api
    rw [hi]
    exact ⟨rfl, rfl⟩
  show (if 100 ≤ ef then _ else _) = _
  rw [if_neg (Nat.not_le_of_lt hef), hs.1, hs.2, List.nil_append]

/-! ### The CSV email filter as a plain row filter -/

theorem filterCsvLoop_eq (n : Nat) (rows : List (List (List Char))) :
    filterCsvLoop n rows = (rows.filter fun row => row.any contains_email).map (fitRow n) := by
  induction rows with
  | nil => rfl
  | cons row rest ih =>
    unfold filterCsvLoop
    rw [List.filter_cons]
    by_cases h : row.any contains_email = true
    · rw [if_pos h, if_pos h, List.map_cons, ih]
    · rw [if_neg h, if_neg h, ih]

theorem eq_false_of_not_true {b : Bool} (h : ¬ b = true) : b = false := by
  cases hb : b
  · rfl
  · exact absurd hb h

/-! ### Claims -/

/-- Claim C1 (code-bug evidence): the spec requires first-match-wins for
every social category, but the literal operator precedence of the twitter
branch (or binds weaker than and) lets any twitter.com URL overwrite an
already populated twitter field: on a text with two twitter.com URLs the
final twitter value is the second URL, not the first. -/
theorem C1_twitter_overwrite :
    (extract_contacts_from_text emptyRecord (str "https://twitter.com/first")).twitter
      = str "https://twitter.com/first"
    ∧ (extract_contacts_from_text emptyRecord
        (str "https://twitter.com/first https://twitter.com/second")).twitter
      = str "https://twitter.com/second" := by decide

/-- Claim C2 counterexample: a quota 403 on the first query does not
terminate the run; the second query is still issued (two entries in the
query trace), builds a profile, and contributes emails. -/
theorem C2_counterexample :
    (search_youtube_api 0 (fun _ => Attempt.quota)).quotaHit = true
    ∧ (run 0 [fun _ => Attempt.quota, fun _ => Attempt.ok [2]]).queryTrace = [0, 0]
    ∧ (run 0 [fun _ => Attempt.quota, fun _ => Attempt.ok [2]]).buildTrace = [0]
    ∧ (run 0 [fun _ => Attempt.quota, fun _ => Attempt.ok [2]]).emailsFound = 2 := by
  decide

/-- Claim C2 (amended): a 403 with a quota reason aborts that request at
once with no further retries (no extra sleeps or attempts, no profiles
built, email counter untouched), but it does not end the run: the
per-query loop continues with the remaining queries exactly as if the
quota-hit query had been absent. -/
theorem C2_quota_aborts_request_not_run (ef k : Nat) (o : Nat → Attempt)
    (rest : List (Nat → Attempt)) (hef : ef < 100) (hk : k < max_retries)
    (htr : ∀ i, i < k → o i = Attempt.transient) (hq : o k = Attempt.quota) :
    search_youtube_api ef o =
      ⟨[], ef, (List.range k).map (fun i => (i + 1) * 5), k + 1, true⟩
    ∧ run ef (o :: rest) =
      ⟨(run ef rest).buildTrace, ef :: (run ef rest).queryTrace,
        (run ef rest).emailsFound⟩ := by
  have hr := retryFrom_quota o k hk htr hq
  constructor
  · unfold search_youtube_api
    rw [hr]
  · exact run_cons_of_items_none ef o rest hef (by rw [hr])

/-- Witness for claim C2 at a concrete oracle: one transient attempt,
then a quota 403 on attempt two of the first query, while a second query
still runs. -/
theorem C2_quota_witness :
    search_youtube_api 0 (fun i => if i = 0 then Attempt.transient else Attempt.quota) =
      ⟨[], 0, (List.range 1).map (fun i => (i + 1) * 5), 2, true⟩
    ∧ run 0 [fun i => if i = 0 then Attempt.transient else Attempt.quota,
        fun _ => Attempt.ok [3]] =
      ⟨(run 0 [fun _ => Attempt.ok [3]]).buildTrace,
        0 :: (run 0 [fun _ => Attempt.ok [3]]).queryTrace,
        (run 0 [fun _ => Attempt.ok [3]]).emailsFound⟩ :=
  C2_quota_aborts_request_not_run 0 1
    (fun i => if i = 0 then Attempt.transient else Attempt.quota)
    [fun _ => Attempt.ok [3]] (by decide) (by decide)
    (by
      intro i hi
      have h0 : i = 0 := by omega
      subst h0
      rfl)
    rfl

/-- Claim C3: in every run starting from a zero email counter, every
channel-profile build begins with the counter strictly below 100, and
every search query is issued with the counter strictly below 100: once
the budget reaches 100 the item loop breaks before the next build and the
query loop stops before the next query. -/
theorem C3_budget_stops (qs : List (Nat → Attempt)) :
    (∀ b ∈ (run 0 qs).buildTrace, b < 100)
    ∧ ∀ q ∈ (run 0 qs).queryTrace, q < 100 :=
  run_trace qs 0

/-- Witness for claim C3 on a run whose first query returns three
channels of 60 emails each: a build and a query both happen at budget 0,
which the claim bounds below 100. -/
theorem C3_budget_stops_witness :
    (0 ∈ (run 0 [fun _ => Attempt.ok [60, 60, 60]]).buildTrace ∧ 0 < 100)
    ∧ (0 ∈ (run 0 [fun _ => Attempt.ok [60, 60, 60]]).queryTrace ∧ 0 < 100) :=
  ⟨⟨by decide, (C3_budget_stops [fun _ => Attempt.ok [60, 60, 60]]).1 0 (by decide)⟩,
   ⟨by decide, (C3_budget_stops [fun _ => Attempt.ok [60, 60, 60]]).2 0 (by decide)⟩⟩

/-- Claim C4 counterexample: a text containing both a@b.com and
bad@example.com can also contain further emails, so its extraction is not
exactly the singleton set claimed. -/
theorem C4_counterexample :
    containsStr (str "a@b.com bad@example.com c@d.com") (str "a@b.com") = true
    ∧ containsStr (str "a@b.com bad@example.com c@d.com") (str "bad@example.com") = true
    ∧ ¬ ((extract_contacts_from_text emptyRecord
          (str "a@b.com bad@example.com c@d.com")).emails = {str "a@b.com"}) := by
  decide

/-- Claim C4 (amended): for texts whose email-pattern matches are exactly
a@b.com and bad@example.com, extraction yields exactly the singleton set
of a@b.com; and in general the extracted email set is exactly the set of
scan matches that do not contain example.com, yourdomain or test
(case-insensitive), lowercased before dedup. -/
theorem C4_email_extraction :
    (∀ t : List Char,
      emailFindall t = [str "a@b.com", str "bad@example.com"] →
      (extract_contacts_from_text emptyRecord t).emails = {str "a@b.com"})
    ∧ ∀ t : List Char,
        (extract_contacts_from_text emptyRecord t).emails
          = (pyEmailFilter (emailFindall t)).toFinset := by
  have key : ∀ t : List Char,
      (extract_contacts_from_text emptyRecord t).emails
        = (pyEmailFilter (emailFindall t)).toFinset := by
    intro t
    by_cases ht : t.isEmpty = true
    · have hnil : t = [] := by
        cases t
        · rfl
        · simp at ht
      subst hnil
      decide
    · have ht2 : t.isEmpty = false := eq_false_of_not_true ht
      unfold extract_contacts_from_text
      simp only [ht2, Bool.false_eq_true, if_false]
      rw [foldl_applyUrl_emails]
      show addEmails ∅ (emailFindall t) = _
      rw [addEmails_eq]
      exact Finset.empty_union _
  refine ⟨?_, key⟩
  intro t h
  rw [key t, h]
  decide

/-- Witness for claim C4 at the concrete text consisting of the two
emails: the scan finds exactly the two matches and extraction keeps only
a@b.com. -/
theorem C4_email_extraction_witness :
    emailFindall (str "a@b.com bad@example.com")
      = [str "a@b.com", str "bad@example.com"]
    ∧ (extract_contacts_from_text emptyRecord (str "a@b.com bad@example.com")).emails
      = {str "a@b.com"} :=
  ⟨by decide, C4_email_extraction.1 (str "a@b.com bad@example.com") (by decide)⟩

/-- Claim C5: the CSV email filter writes exactly the rows in which some
field contains a scan match that fully matches the strict single-email
pattern; a field whose only email-like substring extends to a scan match
with a bar character in the TLD fails the strict validator, so its row is
excluded even though the loose scan finds a match in it, while a field
holding a plain valid email is retained. -/
theorem C5_email_presence_filter :
    (∀ (header : List (List Char)) (rows : List (List (List Char))),
      filter_csv header rows =
        (rows.filter fun row => row.any contains_email).map (fitRow header.length))
    ∧ contains_email (str "Contact: user@host.ab|cd") = false
    ∧ emailFindall (str "Contact: user@host.ab|cd") = [str "user@host.ab|cd"]
    ∧ is_valid_email (str "user@host.ab|cd") = false
    ∧ contains_email (str "a@b.com") = true := by
  refine ⟨?_, by decide, by decide, by decide, by decide⟩
  intro header rows
  cases rows with
  | nil => rfl
  | cons first rest =>
    have hdef : filter_csv header (first :: rest)
        = (if first.any contains_email = true then [fitRow header.length first] else [])
          ++ filterCsvLoop header.length rest := rfl
    rw [hdef, List.filter_cons, filterCsvLoop_eq]
    by_cases h : first.any contains_email = true
    · rw [if_pos h, if_pos h, List.map_cons, List.singleton_append]
    · rw [if_neg h, if_neg h, List.nil_append]

/-- Claim C6: the column-removal tool maps the concrete header and row of
the claim to the expected output, copies the input unchanged when the
header lacks other_links, and passes any row too short to reach the
other_links index through unmodified. -/
theorem C6_remove_other_links :
    clean_csv [str "a", str "other_links", str "b"] [[str "1", str "2", str "3"]]
      = ([str "a", str "b"], [[str "1", str "3"]])
    ∧ (∀ (headers : List (List Char)) (rows : List (List (List Char))),
        str "other_links" ∉ headers → clean_csv headers rows = (headers, rows))
    ∧ ∀ (headers : List (List Char)) (rows : List (List (List Char)))
        (row : List (List Char)), str "other_links" ∈ headers → row ∈ rows →
        row.length ≤ headers.indexOf (str "other_links") →
        row ∈ (clean_csv headers rows).2 := by
  refine ⟨by decide, ?_, ?_⟩
  · intro headers rows hno
    simp [clean_csv, hno]
  · intro headers rows row hin hrow hlen
    unfold clean_csv
    rw [if_pos hin]
    refine List.mem_map.mpr ⟨row, hrow, ?_⟩
    rw [if_neg (Nat.not_lt.mpr hlen)]

/-- Witness for claim C6: the passthrough conjuncts applied at a header
without the column and at a row of length one with the column at index
one. -/
theorem C6_remove_other_links_witness :
    (str "other_links" ∉ [str "a"]
      ∧ clean_csv [str "a"] [[str "z"]] = ([str "a"], [[str "z"]]))
    ∧ (str "other_links" ∈ [str "a", str "other_links"]
      ∧ [str "1"] ∈ [[str "1"]]
      ∧ [str "1"].length ≤ [str "a", str "other_links"].indexOf (str "other_links")
      ∧ [str "1"] ∈ (clean_csv [str "a", str "other_links"] [[str "1"]]).2) :=
  ⟨⟨by decide, C6_remove_other_links.2.1 [str "a"] [[str "z"]] (by decide)⟩,
   ⟨by decide, by decide, by decide,
    C6_remove_other_links.2.2 [str "a", str "other_links"] [[str "1"]] [str "1"]
      (by decide) (by decide) (by decide)⟩⟩

/-- Claim C7 counterexample: extraction is not idempotent: on the text
consisting of one x.com URL, the first pass stores it as twitter; on the
second pass the twitter branch no longer fires (x.com requires an empty
field) and the URL falls through to the website fallback, changing the
record. -/
theorem C7_counterexample :
    extract_contacts_from_text
        (extract_contacts_from_text emptyRecord (str "https://x.com/foo"))
        (str "https://x.com/foo")
      ≠ extract_contacts_from_text emptyRecord (str "https://x.com/foo") := by
  decide

/-- Claim C7 (amended): merging the output for the same text a second
time produces no change, provided every URL captured from the text
contains at most one platform marker and none contains x.com (without
the proviso a second pass can reroute a URL whose category no longer
fires, as the counterexample shows). -/
theorem C7_extract_idempotent (r : Record) (t : List Char)
    (hsafe : ∀ u ∈ urlFindall t, markerCount u ≤ 1 ∧ mX u = false) :
    extract_contacts_from_text (extract_contacts_from_text r t) t
      = extract_contacts_from_text r t := by
  by_cases ht : t.isEmpty = true
  · simp [extract_contacts_from_text, ht]
  · have ht2 : t.isEmpty = false := eq_false_of_not_true ht
    unfold extract_contacts_from_text
    simp only [ht2, Bool.false_eq_true, if_false]
    set us := urlFindall t with hus
    set E := emailFindall t with hE
    set r1 : Record := { r with emails := addEmails r.emails E } with hr1
    set s1 := us.foldl applyUrl r1 with hs1
    have hemails : addEmails s1.emails E = s1.emails := by
      have h1 : s1.emails = addEmails r.emails E := by
        rw [hs1, foldl_applyUrl_emails]
      rw [h1, addEmails_eq, addEmails_eq, Finset.union_assoc, Finset.union_self]
    have hrec : ({ s1 with emails := addEmails s1.emails E } : Record) = s1 := by
      rw [hemails]
    rw [hrec]
    have hready : ∀ u ∈ us, readyFor s1 u := readyAfterFold us r1 hsafe
    rw [foldl_applyUrl_fix us s1 hsafe hready]
    have htwit : s1.twitter = twFinal r1.twitter us := foldl_twitter us r1 hsafe
    unfold twFinal at htwit ⊢
    cases hlt : lastTw us with
    | some w =>
      rw [hlt] at htwit
      have h3 : s1.twitter = storeUrl w := htwit
      simp only [hlt]
      rw [← h3]
    | none =>
      simp only [hlt]

/-- Witness for claim C7 at a concrete text with one email and one
instagram URL (a single marker, no x.com): extracting twice equals
extracting once. -/
theorem C7_extract_idempotent_witness :
    extract_contacts_from_text
        (extract_contacts_from_text emptyRecord
          (str "write chef@cocina.es or https://instagram.com/chef"))
        (str "write chef@cocina.es or https://instagram.com/chef")
      = extract_contacts_from_text emptyRecord
          (str "write chef@cocina.es or https://instagram.com/chef") :=
  C7_extract_idempotent emptyRecord
    (str "write chef@cocina.es or https://instagram.com/chef") (by decide)

/-- Claim C8: a URL whose lowercase form contains tiktok.com is never
assigned to the website field: the website field is either unchanged by
extraction or holds a stored URL whose lowercase form does not contain
tiktok.com; concretely, a second tiktok URL arriving while the tiktok
category is already filled still leaves website empty. -/
theorem C8_tiktok_never_website (r : Record) (t : List Char) :
    ((extract_contacts_from_text r t).website = r.website
      ∨ ∃ u ∈ urlFindall t,
          (extract_contacts_from_text r t).website = storeUrl u
          ∧ containsStr (lowerStr u) (str "tiktok.com") = false)
    ∧ (extract_contacts_from_text
        ⟨∅, [], [], [], str "https://tiktok.com/a", [], [], [], []⟩
        (str "see https://tiktok.com/other page")).website = [] := by
  constructor
  · by_cases ht : t.isEmpty = true
    · left
      simp [extract_contacts_from_text, ht]
    · have ht2 : t.isEmpty = false := eq_false_of_not_true ht
      unfold extract_contacts_from_text
      simp only [ht2, Bool.false_eq_true, if_false]
      rcases foldl_website_prov (urlFindall t)
          { r with emails := addEmails r.emails (emailFindall t) } with h | ⟨v, hv, hc2, hl⟩
      · exact Or.inl h
      · refine Or.inr ⟨v, hv, hc2, ?_⟩
        cases hk : containsStr (lowerStr v) (str "tiktok.com") with
        | false => rfl
        | true =>
          have hlw := mTik_not_website v hk
          rw [hlw] at hl
          simp at hl
  · decide

/-- Claim C10 counterexample: a link written with the http scheme whose
host itself begins with http (httpbin.org) is stored verbatim, without
the claimed https prefix. -/
theorem C10_counterexample :
    (extract_contacts_from_text emptyRecord
        (str "check http://httpbin.org please")).website = str "httpbin.org"
    ∧ startsWithL (str "httpbin.org") (str "https://") = false := by decide

/-- Claim C10 (amended): every link field of an extracted record is
either unchanged or holds the stored form of a captured URL portion, and
every stored form either begins with https-colon-slash-slash or is a
captured portion that itself begins with http and is stored verbatim
(scheme and leading www dot having been stripped by the capture). -/
theorem C10_stored_link_shape (r : Record) (t : List Char) :
    (∀ u : List Char,
      startsWithL (storeUrl u) (str "https://") = true
        ∨ (startsWithL u (str "http") = true ∧ storeUrl u = u))
    ∧ ((extract_contacts_from_text r t).instagram = r.instagram
        ∨ ∃ u ∈ urlFindall t, (extract_contacts_from_text r t).instagram = storeUrl u)
    ∧ ((extract_contacts_from_text r t).twitter = r.twitter
        ∨ ∃ u ∈ urlFindall t, (extract_contacts_from_text r t).twitter = storeUrl u)
    ∧ ((extract_contacts_from_text r t).facebook = r.facebook
        ∨ ∃ u ∈ urlFindall t, (extract_contacts_from_text r t).facebook = storeUrl u)
    ∧ ((extract_contacts_from_text r t).tiktok = r.tiktok
        ∨ ∃ u ∈ urlFindall t, (extract_contacts_from_text r t).tiktok = storeUrl u)
    ∧ ((extract_contacts_from_text r t).twitch = r.twitch
        ∨ ∃ u ∈ urlFindall t, (extract_contacts_from_text r t).twitch = storeUrl u)
    ∧ ((extract_contacts_from_text r t).discord = r.discord
        ∨ ∃ u ∈ urlFindall t, (extract_contacts_from_text r t).discord = storeUrl u)
    ∧ ((extract_contacts_from_text r t).linkedin = r.linkedin
        ∨ ∃ u ∈ urlFindall t, (extract_contacts_from_text r t).linkedin = storeUrl u)
    ∧ ((extract_contacts_from_text r t).website = r.website
        ∨ ∃ u ∈ urlFindall t, (extract_contacts_from_text r t).website = storeUrl u) := by
  refine ⟨?_, ?_⟩
  · intro u
    by_cases h : startsWithL u (str "http") = true
    · exact Or.inr ⟨h, by simp [storeUrl, h]⟩
    · left
      have h2 : storeUrl u = str "https://" ++ u := by
        simp [storeUrl, eq_false_of_not_true h]
      rw [h2]
      exact (startsWithL_iff _ _).mpr ⟨u, rfl⟩
  · by_cases ht : t.isEmpty = true
    · refine ⟨Or.inl ?_, Or.inl ?_, Or.inl ?_, Or.inl ?_, Or.inl ?_, Or.inl ?_,
        Or.inl ?_, Or.inl ?_⟩ <;> simp [extract_contacts_from_text, ht]
    · have ht2 : t.isEmpty = false := eq_false_of_not_true ht
      unfold extract_contacts_from_text
      simp only [ht2, Bool.false_eq_true, if_false]
      exact foldl_applyUrl_prov (urlFindall t)
        { r with emails := addEmails r.emails (emailFindall t) }

/-- Claim C9: when every attempt of a query fails transiently, the
enumerator makes exactly three attempts, sleeping 5 then 10 time units
before the retries, gives up on that query with no data, no builds and an
unchanged email counter, and the run proceeds to the next query instead
of aborting. -/
theorem C9_transient_retry (ef : Nat) (o : Nat → Attempt)
    (rest : List (Nat → Attempt)) (hef : ef < 100)
    (htr : ∀ i, i < max_retries → o i = Attempt.transient) :
    search_youtube_api ef o = ⟨[], ef, [5, 10], 3, false⟩
    ∧ run ef (o :: rest) =
      ⟨(run ef rest).buildTrace, ef :: (run ef rest).queryTrace,
        (run ef rest).emailsFound⟩ := by
  have hr := retryFrom_transient o htr
  constructor
  · unfold search_youtube_api
    rw [hr]
  · exact run_cons_of_items_none ef o rest hef (by rw [hr])

/-- Witness for claim C9 at the always-transient oracle with a successful
second query. -/
theorem C9_transient_retry_witness :
    search_youtube_api 0 (fun _ => Attempt.transient) = ⟨[], 0, [5, 10], 3, false⟩
    ∧ run 0 [fun _ => Attempt.transient, fun _ => Attempt.ok [1]] =
      ⟨(run 0 [fun _ => Attempt.ok [1]]).buildTrace,
        0 :: (run 0 [fun _ => Attempt.ok [1]]).queryTrace,
        (run 0 [fun _ => Attempt.ok [1]]).emailsFound⟩ :=
  C9_transient_retry 0 (fun _ => Attempt.transient) [fun _ => Attempt.ok [1]]
    (by decide) (fun i _ => rfl)

end FindYoutube
